import Mathlib

/-
Formal model of the libfprint image pipeline (src/libfprint/fp-image.c) and of
the device error taxonomy (src/libfprint/fp-device.h).

Modelling conventions:
- Byte buffers are `List Nat`; where byte-ness (values < 256) matters, it is an
  explicit hypothesis (in C the element type guchar guarantees it).
- The C guint64 arithmetic of fpi_std_sq_dev never overflows for byte buffers, so
  it is modelled with exact Nat/Int arithmetic.
- The C `int` accumulator of fpi_mean_sq_diff_norm can overflow; 32-bit
  two-complement wrap-around is modelled explicitly by `wrap32`, and the final
  C `/` on int (truncation toward zero) by `Int.tdiv`.
- gdouble `ppmm` is only ever copied, never computed with, so it is modelled by
  an opaque scalar (`Ppmm`).
- The asynchronous GTask machinery is modelled by explicit sequencing: dispatch
  (`fp_image_detect_minutiae`) builds the work item, the worker
  (`fp_image_detect_minutiae_thread_func`) transforms it and produces the task
  result, and the completion callback (`fp_image_detect_minutiae_cb`) decides
  what is committed to the image.  The callback returns `Option FpImage`;
  `none` models the undefined behaviour of dereferencing a NULL
  `data->minutiae` (which the C callback does unconditionally in its commit
  branch).
- The external NBIS `get_minutiae` is a black box, modelled as a function
  parameter (`Extractor`) returning a status code, an optional binarized
  buffer and an optional minutiae struct, exactly the outputs the C code uses.
-/

namespace FpLib

/-- Resolution in points per millimeter.  In C this is a gdouble; it is only
ever copied by the code modelled here, so an opaque scalar stands for it. -/
abbrev Ppmm := Nat

/-- The three normalization flags used by fp_image_detect_minutiae_thread_func
(FPI_IMAGE_H_FLIPPED, FPI_IMAGE_V_FLIPPED, FPI_IMAGE_COLORS_INVERTED). -/
structure FpiImageFlags where
  hFlipped : Bool
  vFlipped : Bool
  colorsInverted : Bool
deriving DecidableEq

/-- Result of `flags &= ~(FPI_IMAGE_H_FLIPPED | FPI_IMAGE_V_FLIPPED | FPI_IMAGE_COLORS_INVERTED)`. -/
def FpiImageFlags.cleared : FpiImageFlags := ⟨false, false, false⟩

/-- One biometric feature point (struct fp_minutia): pixel coordinates; the
direction/quality metadata is opaque to this layer. -/
structure FpMinutia where
  x : Int
  y : Int
deriving DecidableEq

/-- The NBIS result struct fp_minutiae: a count and a list of minutia points. -/
structure FpMinutiaeStruct where
  num : Nat
  list : List FpMinutia
deriving DecidableEq

/-- FpImage (fpi-image.h instance struct as used by fp-image.c): dimensions,
resolution, pending normalization flags, owned raw buffer, and the nullable
binarized buffer and minutiae collection. -/
structure FpImage where
  width : Nat
  height : Nat
  ppmm : Ppmm
  flags : FpiImageFlags
  data : List Nat
  binarized : Option (List Nat)
  minutiae : Option (List FpMinutia)
deriving DecidableEq

/-- Work item of the background extraction (DetectMinutiaeData).  The
user_cb member is a forwarded callback with no effect on the image state and
is omitted. -/
structure DetectMinutiaeData where
  minutiae : Option FpMinutiaeStruct
  width : Nat
  height : Nat
  ppmm : Ppmm
  flags : FpiImageFlags
  image : List Nat
  binarized : Option (List Nat)
deriving DecidableEq

/-- G_MAXUINT16, the upper bound of the width/height GParamSpec ranges. -/
def G_MAXUINT16 : Nat := 65535

/-- fp_image_new / fp_image_constructed: construct-only width and height
properties are validated against their GParamSpec range 0..G_MAXUINT16
(values outside are clamped by GObject property validation), the raw buffer
is a zeroed allocation of width*height bytes (g_malloc0), everything else is
zero-initialized. -/
def fp_image_new (width height : Nat) : FpImage :=
  let w := min width G_MAXUINT16
  let h := min height G_MAXUINT16
  { width := w
    height := h
    ppmm := 0
    flags := FpiImageFlags.cleared
    data := List.replicate (w * h) 0
    binarized := none
    minutiae := none }

/-- fp_image_get_data: returns the raw buffer and reports length width*height
through the out parameter. -/
def fp_image_get_data (self : FpImage) : List Nat × Nat :=
  (self.data, self.width * self.height)

/-- memcpy (data + offset, row, row.length) on a list buffer. -/
def writeRow (data : List Nat) (offset : Nat) (row : List Nat) : List Nat :=
  data.take offset ++ row ++ data.drop (offset + row.length)

/-- The decomposition of a width*height buffer into its height rows of width
bytes (row i starts at offset i*width). -/
def rowsOf (data : List Nat) (width height : Nat) : List (List Nat) :=
  (List.range height).map fun i => (data.drop (i * width)).take width

/-- One iteration of the vflip loop: save row i to rowbuf, copy row
(data_len - width*(i+1))/width over row i, copy rowbuf over that lower row. -/
def vflipStep (width dataLen : Nat) (data : List Nat) (i : Nat) : List Nat :=
  let offset := i * width
  let swapOffset := dataLen - width * (i + 1)
  let rowbuf := (data.drop offset).take width
  let d1 := writeRow data offset ((data.drop swapOffset).take width)
  writeRow d1 swapOffset rowbuf

/-- vflip from fp-image.c: for i < height/2 swap row i with the mirror row. -/
def vflip (data : List Nat) (width height : Nat) : List Nat :=
  (List.range (height / 2)).foldl (vflipStep width (width * height)) data

/-- Row-level description of one vflip iteration: exchange rows i and j. -/
def swapRows (rows : List (List Nat)) (i j : Nat) : List (List Nat) :=
  (rows.set i (rows.getD j [])).set j (rows.getD i [])

/-- Row-level description of the whole vflip loop. -/
def swapFold (rows : List (List Nat)) (h : Nat) : List (List Nat) :=
  (List.range (h / 2)).foldl (fun rs i => swapRows rs i (h - 1 - i)) rows

/-- hflip from fp-image.c: for every row, copy it to rowbuf and write back
data[offset + j] = rowbuf[width - j - 1]; bytes past width*height are
untouched. -/
def hflip (data : List Nat) (width height : Nat) : List Nat :=
  ((List.range height).map fun i =>
      (fun rowbuf => (List.range width).map fun j => rowbuf.getD (width - j - 1) 0)
        ((data.drop (i * width)).take width)).flatten
    ++ data.drop (width * height)

/-- invert_colors from fp-image.c: data[i] = 0xff - data[i] for
i < width*height (guint8 values, so no wrap for byte inputs). -/
def invert_colors (data : List Nat) (width height : Nat) : List Nat :=
  (data.take (width * height)).map (fun v => 255 - v) ++ data.drop (width * height)

/-- Lines 297..307 of fp-image.c (start of the thread func): apply hflip,
then vflip, then invert_colors, each under its flag, then clear the three
flags in the work item. -/
def detect_minutiae_normalize (d : DetectMinutiaeData) : DetectMinutiaeData :=
  let i1 := if d.flags.hFlipped then hflip d.image d.width d.height else d.image
  let i2 := if d.flags.vFlipped then vflip i1 d.width d.height else i1
  let i3 := if d.flags.colorsInverted then invert_colors i2 d.width d.height else i2
  { d with image := i3, flags := FpiImageFlags.cleared }

/-- Contract of the external NBIS get_minutiae call: from the normalized
buffer, dimensions and resolution it produces a status code, the binarized
buffer output (NULL possible) and the minutiae struct output (NULL possible,
in particular when the call fails before allocating it). -/
abbrev Extractor :=
  List Nat → Nat → Nat → Ppmm → Int × Option (List Nat) × Option FpMinutiaeStruct

/-- fp_image_detect_minutiae_thread_func: normalize the work item, run the
extractor, store its binarized/minutiae outputs into the work item, and
produce the task result: success for status 0, otherwise the fatal
"Minutiae scan failed with code r" error. -/
def fp_image_detect_minutiae_thread_func (extract : Extractor)
    (d : DetectMinutiaeData) : DetectMinutiaeData × Except Int Unit :=
  let d1 := detect_minutiae_normalize d
  let out := extract d1.image d1.width d1.height d1.ppmm
  let d2 := { d1 with binarized := out.2.1, minutiae := out.2.2 }
  (d2, if out.1 = 0 then Except.ok () else Except.error out.1)

/-- fp_image_detect_minutiae_cb: if the cancellable is absent or not
cancelled, commit the work item to the image: overwrite flags, raw data,
binarized buffer, and rebuild the minutiae array from the first num entries
of the minutiae struct.  The task result is never consulted.  `none`
models the NULL dereference of data->minutiae performed by the commit
branch when the extractor failed before allocating the struct. -/
def fp_image_detect_minutiae_cb (image : FpImage) (cancelled : Bool)
    (d : DetectMinutiaeData) : Option FpImage :=
  if cancelled then some image
  else
    match d.minutiae with
    | none => none
    | some ms =>
        some { image with
               flags := d.flags
               data := d.image
               binarized := d.binarized
               minutiae := some (ms.list.take ms.num) }

/-- fp_image_detect_minutiae (dispatch): snapshot width*height bytes of the
raw buffer (memcpy), the flags, dimensions and resolution into a fresh work
item; the source image is returned unchanged. -/
def fp_image_detect_minutiae (self : FpImage) : DetectMinutiaeData × FpImage :=
  ({ minutiae := none
     width := self.width
     height := self.height
     ppmm := self.ppmm
     flags := self.flags
     image := self.data.take (self.width * self.height)
     binarized := none }, self)

/-- The whole asynchronous operation in sequence: dispatch, worker, then the
completion callback observing the cancellation state reached by the time the
extraction finished. -/
def detect_minutiae_pipeline (extract : Extractor) (self : FpImage)
    (cancelled : Bool) : Option FpImage × Except Int Unit :=
  let p := fp_image_detect_minutiae self
  let q := fp_image_detect_minutiae_thread_func extract p.1
  (fp_image_detect_minutiae_cb p.2 cancelled q.1, q.2)

/-- fpi_std_sq_dev: mean = sum of bytes / size (truncating), result =
sum of (byte - mean)^2 / size (truncating).  The intermediate guint64
arithmetic of the C code is exact for byte buffers, so Nat/Int arithmetic
models it directly; the loops are folds. -/
def fpi_std_sq_dev (buf : List Nat) : Nat :=
  let size := buf.length
  let mean : Nat := buf.foldl (· + ·) 0 / size
  let res : Nat :=
    buf.foldl
      (fun (r b : Nat) => r + (((b : Int) - (mean : Int)) * ((b : Int) - (mean : Int))).toNat) 0
  res / size

/-- Reduction of an integer to the 32-bit two-complement range
[-2^31, 2^31), the effect of storing into a C int. -/
def wrap32 (z : Int) : Int := (z + 2 ^ 31) % 2 ^ 32 - 2 ^ 31

/-- fpi_mean_sq_diff_norm: res accumulates (buf1[i] - buf2[i])^2 for i < size
in a C int (each term is at most 255^2 for byte inputs, but the running sum
can overflow, hence wrap32), and the result is res / size with C int
division, i.e. truncation toward zero. -/
def fpi_mean_sq_diff_norm (buf1 buf2 : List Nat) (size : Nat) : Int :=
  let res : Int := ((buf1.take size).zip (buf2.take size)).foldl
    (fun r p => wrap32 (r + ((p.1 : Int) - (p.2 : Int)) * ((p.1 : Int) - (p.2 : Int)))) 0
  res.tdiv size

/-- FpDeviceError from fp-device.h: the fatal/device error domain. -/
inductive FpDeviceError
  | general
  | notSupported
  | notOpen
  | alreadyOpen
  | busy
  | proto
  | dataInvalid
  | dataNotFound
  | dataFull
deriving DecidableEq

/-- FpDeviceRetry from fp-device.h: the retry-condition domain. -/
inductive FpDeviceRetry
  | general
  | tooShort
  | centerFinger
  | removeFinger
deriving DecidableEq

/-- The members of FpDeviceError, in declaration order. -/
def allDeviceErrors : List FpDeviceError :=
  [.general, .notSupported, .notOpen, .alreadyOpen, .busy, .proto,
   .dataInvalid, .dataNotFound, .dataFull]

/-- The members of FpDeviceRetry, in declaration order. -/
def allDeviceRetries : List FpDeviceRetry :=
  [.general, .tooShort, .centerFinger, .removeFinger]

/-- A GError as produced by this library: the code is tagged by its quark
domain, FP_DEVICE_ERROR or FP_DEVICE_RETRY (fp_device_error_quark and
fp_device_retry_quark are distinct domains). -/
inductive FpError
  | device (code : FpDeviceError)
  | retry (code : FpDeviceRetry)
deriving DecidableEq

/-- Whether a GError belongs to the FP_DEVICE_ERROR domain. -/
def FpError.isDevice : FpError → Bool
  | .device _ => true
  | .retry _ => false

/-- Whether a GError belongs to the FP_DEVICE_RETRY domain. -/
def FpError.isRetry : FpError → Bool
  | .device _ => false
  | .retry _ => true

/-- FpEnrollProgress record (fp-device.h): completed stage count, optional
partial print, and an optional error that the header guarantees to be of
the FP_DEVICE_RETRY domain if set. -/
structure FpEnrollProgressRecord where
  completedStages : Nat
  hasPrint : Bool
  retryCondition : Option FpDeviceRetry
deriving DecidableEq

/-- Modelled from the spec: the device session code (fp-device.c) is not part
of the sources here; per the spec every terminal callback receives exactly
one of a success value or a fatal error, and retry conditions are never a
terminal outcome, so a terminal outcome carries either a value or an
FpDeviceError code. -/
inductive TerminalOutcome (α : Type)
  | success (value : α)
  | failure (code : FpDeviceError)

/-- Concrete 1x1 image used to exercise the failed-extraction commit path. -/
def c1Image : FpImage :=
  { width := 1, height := 1, ppmm := 0, flags := FpiImageFlags.cleared
    data := [7], binarized := none, minutiae := none }

/-- Extractor failing with status 1 while still having produced a binarized
buffer and an (empty) minutiae struct. -/
def c1ExtractFail : Extractor := fun _ _ _ _ => (1, some [0], some ⟨0, []⟩)

/-- Extractor failing with status 1 after producing a minutiae struct but no
binarized buffer. -/
def c1ExtractNoBin : Extractor := fun _ _ _ _ => (1, none, some ⟨0, []⟩)

/-- Extractor failing with status 1 before allocating anything, leaving the
minutiae output NULL, as NBIS get_minutiae does on early failure. -/
def c1ExtractNull : Extractor := fun _ _ _ _ => (1, none, none)

/-- Normalized image contents as the spec words them: split into rows, reverse
every row if hFlipped, reverse the row order if vFlipped, rejoin, and
complement every byte if colorsInverted. -/
def specNormalizedImage (d : DetectMinutiaeData) : List Nat :=
  let rows := rowsOf d.image d.width d.height
  let rows1 := if d.flags.hFlipped then rows.map List.reverse else rows
  let rows2 := if d.flags.vFlipped then rows1.reverse else rows1
  let img := rows2.flatten
  if d.flags.colorsInverted then img.map (fun v => 255 - v) else img

/-- Concrete work item with all three normalization flags set, for witnesses. -/
def c5Data : DetectMinutiaeData :=
  { minutiae := none, width := 2, height := 2, ppmm := 0
    flags := ⟨true, true, true⟩, image := [1, 2, 3, 4], binarized := none }

/-- Concrete image with a full snapshot state, for witnesses. -/
def c7Image : FpImage :=
  { width := 2, height := 2, ppmm := 19, flags := ⟨true, false, true⟩
    data := [9, 8, 7, 6], binarized := none, minutiae := none }

/-- Concrete successful extractor, for witnesses. -/
def okExtract : Extractor := fun img _ _ _ => (0, some img, some ⟨1, [⟨3, 4⟩]⟩)

/-- Concrete work item committing nothing surprising, for the C10 witness. -/
def c10Data : DetectMinutiaeData :=
  { minutiae := some ⟨0, []⟩, width := 1, height := 1, ppmm := 0
    flags := FpiImageFlags.cleared, image := [5], binarized := some [1] }

/-- Image the C10 witness commit produces. -/
def c10Committed : FpImage :=
  { width := 65535, height := 3, ppmm := 0, flags := FpiImageFlags.cleared
    data := [5], binarized := some [1], minutiae := some [] }

/- ------------------------------------------------------------------ -/
/- Generic list lemmas used by the flip proofs.                        -/
/- ------------------------------------------------------------------ -/

theorem getD_set_eq {α : Type} (l : List α) (i : Nat) (a d : α) (hi : i < l.length) :
    (l.set i a).getD i d = a := by
  rw [List.getD_eq_getElem _ d (by simpa using hi)]
  simp [List.getElem_set]

theorem getD_set_ne {α : Type} (l : List α) (i j : Nat) (a d : α) (hij : i ≠ j) :
    (l.set i a).getD j d = l.getD j d := by
  by_cases hj : j < l.length
  · rw [List.getD_eq_getElem _ d (by simpa using hj), List.getD_eq_getElem _ d hj]
    simp [List.getElem_set, hij]
  · have h1 : l.length ≤ j := le_of_not_lt hj
    rw [List.getD_eq_default _ d (by simpa using h1), List.getD_eq_default _ d h1]

theorem length_flatten_of_all (w : Nat) (rows : List (List Nat))
    (hall : ∀ r ∈ rows, r.length = w) : rows.flatten.length = w * rows.length := by
  rw [List.length_flatten]
  have hrep : rows.map List.length = List.replicate rows.length w := by
    refine List.eq_replicate_iff.mpr ⟨by simp, ?_⟩
    intro x hx
    simp only [List.mem_map] at hx
    obtain ⟨r, hr, rfl⟩ := hx
    exact hall r hr
  rw [hrep]
  simp [List.sum_replicate, smul_eq_mul, Nat.mul_comm]

/- ------------------------------------------------------------------ -/
/- Row decomposition of a width*height buffer.                         -/
/- ------------------------------------------------------------------ -/

theorem rowsOf_succ (data : List Nat) (w h : Nat) :
    rowsOf data w (h + 1) = data.take w :: rowsOf (data.drop w) w h := by
  unfold rowsOf
  rw [List.range_succ_eq_map]
  simp only [List.map_cons, Nat.zero_mul, List.drop_zero, List.map_map]
  refine congrArg _ (List.map_congr_left fun i _ => ?_)
  simp only [Function.comp_apply]
  rw [List.drop_drop]
  congr 2
  rw [Nat.succ_mul]
  ring

theorem length_rowsOf (data : List Nat) (w h : Nat) : (rowsOf data w h).length = h := by
  simp [rowsOf]

theorem row_length (data : List Nat) (w h i : Nat) (hd : data.length = w * h)
    (hi : i < h) : ((data.drop (i * w)).take w).length = w := by
  have h2 : (i + 1) * w ≤ h * w := Nat.mul_le_mul_right w hi
  have h3 : i * w + w ≤ w * h := by
    calc i * w + w = (i + 1) * w := by ring
    _ ≤ h * w := h2
    _ = w * h := by ring
  simp only [List.length_take, List.length_drop, hd]
  omega

theorem length_of_mem_rowsOf (data : List Nat) (w h : Nat) (hd : data.length = w * h)
    (r : List Nat) (hr : r ∈ rowsOf data w h) : r.length = w := by
  simp only [rowsOf, List.mem_map, List.mem_range] at hr
  obtain ⟨i, hi, rfl⟩ := hr
  exact row_length data w h i hd hi

theorem flatten_rowsOf (w : Nat) : ∀ (h : Nat) (data : List Nat),
    data.length = w * h → (rowsOf data w h).flatten = data := by
  intro h
  induction h with
  | zero =>
    intro data hd
    have : data = [] := List.length_eq_zero.mp (by simpa using hd)
    simp [rowsOf, this]
  | succ n ih =>
    intro data hd
    have hdl : (data.drop w).length = w * n := by
      rw [Nat.mul_succ] at hd
      simp only [List.length_drop, hd]
      omega
    rw [rowsOf_succ, List.flatten_cons, ih (data.drop w) hdl]
    exact List.take_append_drop w data

theorem rowsOf_flatten (w : Nat) : ∀ (rows : List (List Nat)),
    (∀ r ∈ rows, r.length = w) → rowsOf rows.flatten w rows.length = rows := by
  intro rows
  induction rows with
  | nil => intro _; rfl
  | cons r rest ih =>
    intro hall
    have hr : r.length = w := hall r (List.mem_cons_self r rest)
    simp only [List.length_cons, List.flatten_cons]
    rw [rowsOf_succ]
    have t1 : (r ++ rest.flatten).take w = r := by
      rw [← hr]; exact List.take_left r rest.flatten
    have t2 : (r ++ rest.flatten).drop w = rest.flatten := by
      rw [← hr]; exact List.drop_left r rest.flatten
    rw [t1, t2, ih (fun x hx => hall x (List.mem_cons_of_mem r hx))]

theorem length_getD_of_all (w : Nat) (rows : List (List Nat)) (j : Nat)
    (hall : ∀ r ∈ rows, r.length = w) (hj : j < rows.length) :
    (rows.getD j []).length = w := by
  rw [List.getD_eq_getElem rows [] hj]
  exact hall _ (List.getElem_mem hj)

theorem getRow_flatten (w : Nat) : ∀ (rows : List (List Nat)) (i : Nat),
    (∀ r ∈ rows, r.length = w) → i < rows.length →
    ((rows.flatten).drop (i * w)).take w = rows.getD i [] := by
  intro rows
  induction rows with
  | nil => intro i _ hi; simp at hi
  | cons r rest ih =>
    intro i hall hi
    have hr : r.length = w := hall r (List.mem_cons_self r rest)
    match i with
    | 0 =>
      simp only [Nat.zero_mul, List.drop_zero, List.flatten_cons, List.getD_cons_zero]
      rw [← hr]
      exact List.take_left r rest.flatten
    | i + 1 =>
      have e1 : (i + 1) * w = r.length + i * w := by rw [hr]; ring
      simp only [List.flatten_cons, List.getD_cons_succ, e1, List.drop_append]
      exact ih i (fun x hx => hall x (List.mem_cons_of_mem r hx)) (by simpa using hi)

theorem writeRow_flatten (w : Nat) : ∀ (rows : List (List Nat)) (i : Nat) (r2 : List Nat),
    (∀ r ∈ rows, r.length = w) → i < rows.length → r2.length = w →
    writeRow rows.flatten (i * w) r2 = (rows.set i r2).flatten := by
  intro rows
  induction rows with
  | nil => intro i _ _ hi; simp at hi
  | cons r rest ih =>
    intro i r2 hall hi hr2
    have hr : r.length = w := hall r (List.mem_cons_self r rest)
    match i with
    | 0 =>
      simp only [writeRow, Nat.zero_mul, List.take_zero, Nat.zero_add, List.flatten_cons,
        List.set_cons_zero, List.nil_append]
      rw [hr2, ← hr, List.drop_left]
    | i + 1 =>
      have e1 : (i + 1) * w = r.length + i * w := by rw [hr]; ring
      have hih := ih i r2 (fun x hx => hall x (List.mem_cons_of_mem r hx)) (by simpa using hi) hr2
      simp only [writeRow] at hih
      simp only [writeRow, List.flatten_cons, List.set_cons_succ, e1, List.take_append]
      rw [show r.length + i * w + r2.length = r.length + (i * w + r2.length) from by ring,
        List.drop_append]
      simp only [List.append_assoc] at hih ⊢
      rw [hih]

theorem swapRows_length (rows : List (List Nat)) (i j : Nat) :
    (swapRows rows i j).length = rows.length := by
  simp [swapRows]

theorem swapRows_all (w : Nat) (rows : List (List Nat)) (i j : Nat)
    (hall : ∀ r ∈ rows, r.length = w) (hi : i < rows.length) (hj : j < rows.length) :
    ∀ r ∈ swapRows rows i j, r.length = w := by
  intro r hr
  rcases List.mem_or_eq_of_mem_set hr with hr1 | hr1
  · rcases List.mem_or_eq_of_mem_set hr1 with hr2 | hr2
    · exact hall r hr2
    · rw [hr2]; exact length_getD_of_all w rows j hall hj
  · rw [hr1]; exact length_getD_of_all w rows i hall hi

theorem vflipStep_flatten (w hgt : Nat) (rows : List (List Nat)) (i : Nat)
    (hlen : rows.length = hgt) (hall : ∀ r ∈ rows, r.length = w) (hi : i < hgt / 2) :
    vflipStep w (w * hgt) rows.flatten i = (swapRows rows i (hgt - 1 - i)).flatten := by
  have hih : i < hgt := lt_of_lt_of_le hi (Nat.div_le_self hgt 2)
  have hjh : hgt - 1 - i < hgt := by omega
  have hoff : w * hgt - w * (i + 1) = (hgt - 1 - i) * w := by
    rw [← Nat.mul_sub, Nat.mul_comm]
    congr 1
    omega
  have hi2 : i < rows.length := hlen ▸ hih
  have hj2 : hgt - 1 - i < rows.length := hlen ▸ hjh
  simp only [vflipStep, hoff]
  rw [getRow_flatten w rows i hall hi2, getRow_flatten w rows (hgt - 1 - i) hall hj2,
    writeRow_flatten w rows i _ hall hi2 (length_getD_of_all w rows _ hall hj2)]
  have hall2 : ∀ r ∈ rows.set i (rows.getD (hgt - 1 - i) []), r.length = w := by
    intro r hr
    rcases List.mem_or_eq_of_mem_set hr with hr1 | hr1
    · exact hall r hr1
    · rw [hr1]; exact length_getD_of_all w rows _ hall hj2
  rw [writeRow_flatten w _ (hgt - 1 - i) _ hall2 (by simpa using hj2)
    (length_getD_of_all w rows _ hall hi2)]
  rfl

theorem vflip_flatten_aux (w hgt : Nat) : ∀ (l : List Nat) (rows : List (List Nat)),
    rows.length = hgt → (∀ r ∈ rows, r.length = w) → (∀ x ∈ l, x < hgt / 2) →
    l.foldl (vflipStep w (w * hgt)) rows.flatten =
      (l.foldl (fun rs i => swapRows rs i (hgt - 1 - i)) rows).flatten := by
  intro l
  induction l with
  | nil => intro rows _ _ _; rfl
  | cons a t ih =>
    intro rows hlen hall hl
    have ha : a < hgt / 2 := hl a (List.mem_cons_self a t)
    have hah : a < hgt := lt_of_lt_of_le ha (Nat.div_le_self hgt 2)
    simp only [List.foldl_cons]
    rw [vflipStep_flatten w hgt rows a hlen hall ha]
    exact ih (swapRows rows a (hgt - 1 - a))
      (by rw [swapRows_length]; exact hlen)
      (swapRows_all w rows a _ hall (hlen ▸ hah) (hlen ▸ (by omega : hgt - 1 - a < hgt)))
      (fun x hx => hl x (List.mem_cons_of_mem a hx))

theorem vflip_flatten (w hgt : Nat) (rows : List (List Nat))
    (hlen : rows.length = hgt) (hall : ∀ r ∈ rows, r.length = w) :
    vflip rows.flatten w hgt = (swapFold rows hgt).flatten := by
  unfold vflip swapFold
  exact vflip_flatten_aux w hgt (List.range (hgt / 2)) rows hlen hall
    (fun x hx => List.mem_range.mp hx)

theorem swapFold_getD (hgt : Nat) (rows : List (List Nat)) (hlen : rows.length = hgt) :
    ∀ (k : Nat), k ≤ hgt / 2 →
      ((List.range k).foldl (fun rs i => swapRows rs i (hgt - 1 - i)) rows).length = hgt ∧
      ∀ j, j < hgt →
        ((List.range k).foldl (fun rs i => swapRows rs i (hgt - 1 - i)) rows).getD j [] =
          if j < k ∨ hgt - k ≤ j then rows.getD (hgt - 1 - j) [] else rows.getD j [] := by
  intro k
  induction k with
  | zero =>
    intro _
    refine ⟨by simpa using hlen, ?_⟩
    intro j hj
    simp only [List.range_zero, List.foldl_nil]
    rw [if_neg (by omega)]
  | succ k ih =>
    intro hk1
    have hk : k ≤ hgt / 2 := by omega
    have hkh : k < hgt / 2 := hk1
    obtain ⟨ihlen, ihget⟩ := ih hk
    have hbound : 2 * (k + 1) ≤ hgt := by
      have := Nat.div_le_self hgt 2
      omega
    rw [List.range_succ, List.foldl_append, List.foldl_cons, List.foldl_nil]
    set rs := (List.range k).foldl (fun rs i => swapRows rs i (hgt - 1 - i)) rows with hrs
    have hklen : k < rs.length := by omega
    have hmlen : hgt - 1 - k < rs.length := by omega
    have hkm : k ≠ hgt - 1 - k := by omega
    constructor
    · rw [swapRows_length]; exact ihlen
    · intro j hj
      by_cases hjm : j = hgt - 1 - k
      · have e1 : (swapRows rs k (hgt - 1 - k)).getD j [] = rs.getD k [] := by
          rw [hjm]
          unfold swapRows
          exact getD_set_eq _ _ _ _ (by rw [List.length_set]; exact hmlen)
        rw [e1, ihget k (by omega), if_neg (by omega), if_pos (by omega)]
        congr 1
        omega
      · by_cases hjk : j = k
        · have e1 : (swapRows rs k (hgt - 1 - k)).getD j [] = rs.getD (hgt - 1 - k) [] := by
            unfold swapRows
            rw [getD_set_ne (rs.set k (rs.getD (hgt - 1 - k) [])) (hgt - 1 - k) j
              (rs.getD k []) [] (by omega), hjk, getD_set_eq _ _ _ _ hklen]
          rw [e1, ihget (hgt - 1 - k) (by omega), if_neg (by omega), if_pos (by omega), hjk]
        · have e1 : (swapRows rs k (hgt - 1 - k)).getD j [] = rs.getD j [] := by
            unfold swapRows
            rw [getD_set_ne (rs.set k (rs.getD (hgt - 1 - k) [])) (hgt - 1 - k) j
              (rs.getD k []) [] (by omega),
              getD_set_ne rs k j (rs.getD (hgt - 1 - k) []) [] (by omega)]
          rw [e1, ihget j hj]
          by_cases hc : j < k ∨ hgt - k ≤ j
          · rw [if_pos hc, if_pos (by omega)]
          · rw [if_neg hc, if_neg (by omega)]

theorem swapFold_eq_reverse (hgt : Nat) (rows : List (List Nat)) (hlen : rows.length = hgt) :
    swapFold rows hgt = rows.reverse := by
  obtain ⟨hlen2, hget⟩ := swapFold_getD hgt rows hlen (hgt / 2) (le_refl _)
  unfold swapFold
  apply List.ext_getElem (by rw [hlen2, List.length_reverse, hlen])
  intro j h1 h2
  have hj : j < hgt := by rw [hlen2] at h1; exact h1
  have hd := hget j hj
  have e1 : ((List.range (hgt / 2)).foldl (fun rs i => swapRows rs i (hgt - 1 - i))
      rows).getD j [] = rows.getD (hgt - 1 - j) [] := by
    by_cases hc : j < hgt / 2 ∨ hgt - hgt / 2 ≤ j
    · rw [hd, if_pos hc]
    · rw [hd, if_neg hc]
      congr 1
      omega
  rw [List.getD_eq_getElem _ [] h1] at e1
  rw [List.getD_eq_getElem _ [] (by omega : hgt - 1 - j < rows.length)] at e1
  rw [e1, List.getElem_reverse]
  congr 1
  omega

theorem vflip_spec (data : List Nat) (w hgt : Nat) (hd : data.length = w * hgt) :
    vflip data w hgt = ((rowsOf data w hgt).reverse).flatten := by
  have h1 : (rowsOf data w hgt).length = hgt := length_rowsOf data w hgt
  have h2 : ∀ r ∈ rowsOf data w hgt, r.length = w := length_of_mem_rowsOf data w hgt hd
  have h3 := flatten_rowsOf w hgt data hd
  conv_lhs => rw [← h3]
  rw [vflip_flatten w hgt _ h1 h2, swapFold_eq_reverse hgt _ h1]

theorem row_reverse_map (w : Nat) (l : List Nat) (hl : l.length = w) :
    (List.range w).map (fun j => l.getD (w - j - 1) 0) = l.reverse := by
  apply List.ext_getElem (by simp [hl])
  intro i h1 h2
  have hi : i < w := by simpa using h1
  simp only [List.getElem_map, List.getElem_range]
  have e : w - i - 1 = l.length - 1 - i := by omega
  rw [e, List.getD_eq_getElem l 0 (by omega), List.getElem_reverse]

theorem hflip_spec (data : List Nat) (w h : Nat) (hd : data.length = w * h) :
    hflip data w h = ((rowsOf data w h).map List.reverse).flatten := by
  simp only [hflip, rowsOf, List.map_map]
  rw [List.drop_of_length_le (le_of_eq hd), List.append_nil]
  refine congrArg _ (List.map_congr_left fun i hi => ?_)
  have hiw : i < h := List.mem_range.mp hi
  simp only [Function.comp_apply]
  exact row_reverse_map w _ (row_length data w h i hd hiw)

theorem invert_colors_spec (data : List Nat) (w h : Nat) (hd : data.length = w * h) :
    invert_colors data w h = data.map (fun v => 255 - v) := by
  unfold invert_colors
  rw [List.take_of_length_le (le_of_eq hd), List.drop_of_length_le (le_of_eq hd),
    List.append_nil]

theorem vflip_rows (w hgt : Nat) (rows : List (List Nat)) (hlen : rows.length = hgt)
    (hall : ∀ r ∈ rows, r.length = w) :
    vflip rows.flatten w hgt = rows.reverse.flatten := by
  rw [vflip_flatten w hgt rows hlen hall, swapFold_eq_reverse hgt rows hlen]

theorem all_rows_reverse (w : Nat) (rows : List (List Nat))
    (hall : ∀ r ∈ rows, r.length = w) : ∀ r ∈ rows.reverse, r.length = w :=
  fun r hr => hall r (List.mem_reverse.mp hr)

theorem all_rows_map_reverse (w : Nat) (rows : List (List Nat))
    (hall : ∀ r ∈ rows, r.length = w) : ∀ r ∈ rows.map List.reverse, r.length = w := by
  intro r hr
  simp only [List.mem_map] at hr
  obtain ⟨s, hs, rfl⟩ := hr
  simp [hall s hs]

theorem length_flatten_eq (w h : Nat) (rows : List (List Nat)) (hlen : rows.length = h)
    (hall : ∀ r ∈ rows, r.length = w) : rows.flatten.length = w * h := by
  rw [length_flatten_of_all w rows hall, hlen]

theorem rowsOf_flatten_of_len (w h : Nat) (rows : List (List Nat)) (hlen : rows.length = h)
    (hall : ∀ r ∈ rows, r.length = w) : rowsOf rows.flatten w h = rows := by
  have e := rowsOf_flatten w rows hall
  rw [hlen] at e
  exact e

theorem hflip_hflip (data : List Nat) (w h : Nat) (hd : data.length = w * h) :
    hflip (hflip data w h) w h = data := by
  have hall := length_of_mem_rowsOf data w h hd
  have hlen := length_rowsOf data w h
  have hall2 := all_rows_map_reverse w _ hall
  have hlen2 : ((rowsOf data w h).map List.reverse).length = h := by simp [hlen]
  have hd2 : (hflip data w h).length = w * h := by
    rw [hflip_spec data w h hd]
    exact length_flatten_eq w h _ hlen2 hall2
  rw [hflip_spec _ w h hd2, hflip_spec data w h hd,
    rowsOf_flatten_of_len w h _ hlen2 hall2, List.map_map]
  have e : List.reverse ∘ List.reverse = @id (List Nat) :=
    funext fun l => List.reverse_reverse l
  rw [e, List.map_id]
  exact flatten_rowsOf w h data hd

theorem vflip_vflip (data : List Nat) (w h : Nat) (hd : data.length = w * h) :
    vflip (vflip data w h) w h = data := by
  have hall := length_of_mem_rowsOf data w h hd
  have hlen := length_rowsOf data w h
  have e1 : vflip data w h = ((rowsOf data w h).reverse).flatten := vflip_spec data w h hd
  have hall2 := all_rows_reverse w _ hall
  have hlen2 : ((rowsOf data w h).reverse).length = h := by simp [hlen]
  rw [e1, vflip_rows w h _ hlen2 hall2, List.reverse_reverse]
  exact flatten_rowsOf w h data hd

theorem normalize_spec (d : DetectMinutiaeData) (hd : d.image.length = d.width * d.height) :
    detect_minutiae_normalize d =
      { d with image := specNormalizedImage d, flags := FpiImageFlags.cleared } := by
  have hall := length_of_mem_rowsOf d.image d.width d.height hd
  have hlen := length_rowsOf d.image d.width d.height
  have hmap_all := all_rows_map_reverse d.width _ hall
  have hmap_len : ((rowsOf d.image d.width d.height).map List.reverse).length = d.height := by
    simp [hlen]
  have hback := flatten_rowsOf d.width d.height d.image hd
  simp only [detect_minutiae_normalize, specNormalizedImage]
  cases f1 : d.flags.hFlipped <;> cases f2 : d.flags.vFlipped <;>
    cases f3 : d.flags.colorsInverted <;>
    simp only [f1, f2, f3, Bool.false_eq_true, eq_self_iff_true, if_true, if_false] <;>
    refine congrArg (fun img => { d with image := img, flags := FpiImageFlags.cleared }) ?_
  · exact hback.symm
  · conv_lhs => rw [← hback]
    rw [invert_colors_spec _ d.width d.height (length_flatten_eq d.width d.height _ hlen hall)]
  · conv_lhs => rw [← hback]
    rw [vflip_rows d.width d.height _ hlen hall]
  · conv_lhs => rw [← hback]
    rw [vflip_rows d.width d.height _ hlen hall,
      invert_colors_spec _ d.width d.height
        (length_flatten_eq d.width d.height _ (by simp [hlen]) (all_rows_reverse _ _ hall))]
  · rw [hflip_spec d.image d.width d.height hd]
  · rw [hflip_spec d.image d.width d.height hd,
      invert_colors_spec _ d.width d.height (length_flatten_eq d.width d.height _ hmap_len hmap_all)]
  · rw [hflip_spec d.image d.width d.height hd,
      vflip_rows d.width d.height _ hmap_len hmap_all]
  · rw [hflip_spec d.image d.width d.height hd,
      vflip_rows d.width d.height _ hmap_len hmap_all,
      invert_colors_spec _ d.width d.height
        (length_flatten_eq d.width d.height _ (by simp [hmap_len]) (all_rows_reverse _ _ hmap_all))]

/- ------------------------------------------------------------------ -/
/- Quality metric lemmas.                                              -/
/- ------------------------------------------------------------------ -/

theorem foldl_add_map {α : Type} (f : α → Nat) : ∀ (l : List α) (a : Nat),
    l.foldl (fun r b => r + f b) a = a + (l.map f).sum := by
  intro l
  induction l with
  | nil => intro a; simp
  | cons x t ih =>
    intro a
    simp only [List.foldl_cons, List.map_cons, List.sum_cons, ih]
    ring

theorem fpi_std_sq_dev_eq (buf : List Nat) :
    fpi_std_sq_dev buf =
      (buf.map fun (b : Nat) =>
        (((b : Int) - ((buf.sum / buf.length : Nat) : Int)) ^ 2).toNat).sum / buf.length := by
  unfold fpi_std_sq_dev
  have h1 : buf.foldl (· + ·) 0 = buf.sum := by
    rw [List.sum_eq_foldl]
  have h2 := foldl_add_map
    (fun (b : Nat) => (((b : Int) - ((buf.sum / buf.length : Nat) : Int))
        * ((b : Int) - ((buf.sum / buf.length : Nat) : Int))).toNat) buf 0
  simp only [h1, h2, Nat.zero_add]
  congr 1
  refine congrArg _ (List.map_congr_left fun b _ => ?_)
  rw [pow_two]

theorem fpi_std_sq_dev_const (c n : Nat) (hn : 1 ≤ n) :
    fpi_std_sq_dev (List.replicate n c) = 0 := by
  rw [fpi_std_sq_dev_eq, List.length_replicate, List.sum_replicate, smul_eq_mul,
    Nat.mul_div_cancel_left c (by omega : 0 < n), List.map_replicate]
  simp

theorem wrap32_eq_of_range (z : Int) (h1 : -(2 ^ 31) ≤ z) (h2 : z < 2 ^ 31) : wrap32 z = z := by
  unfold wrap32
  rw [Int.emod_eq_of_lt (by omega) (by omega)]
  omega

theorem wrap32_add_left (x y : Int) : wrap32 (wrap32 x + y) = wrap32 (x + y) := by
  unfold wrap32
  congr 1
  have h := Int.ediv_add_emod (x + 2 ^ 31) (2 ^ 32)
  have e1 : (x + 2 ^ 31) % 2 ^ 32 - 2 ^ 31 + y + 2 ^ 31
      = x + y + 2 ^ 31 + 2 ^ 32 * (-((x + 2 ^ 31) / 2 ^ 32)) := by linear_combination h
  rw [e1, Int.add_mul_emod_self_left]

theorem wrapfold_replicate (a b : Nat) : ∀ (n : Nat) (r : Int), 1 ≤ n →
    (List.replicate n (a, b)).foldl
        (fun r p => wrap32 (r + ((p.1 : Int) - (p.2 : Int)) * ((p.1 : Int) - (p.2 : Int)))) r
      = wrap32 (r + n * (((a : Int) - b) * ((a : Int) - b))) := by
  intro n
  induction n with
  | zero => intro r h; omega
  | succ n ih =>
    intro r _
    rw [List.replicate_succ, List.foldl_cons]
    rcases Nat.eq_zero_or_pos n with hn | hn
    · subst hn
      simp only [List.replicate, List.foldl_nil]
      congr 1
      push_cast
      ring
    · rw [ih _ hn, wrap32_add_left]
      congr 1
      push_cast
      ring

theorem zip_self {α : Type} : ∀ (l : List α), l.zip l = l.map fun x => (x, x) := by
  intro l
  induction l with
  | nil => rfl
  | cons x t ih => rw [List.zip_cons_cons, ih, List.map_cons]

theorem wrapfold_self_zero : ∀ (l : List Nat),
    (l.map fun x => (x, x)).foldl
      (fun r p => wrap32 (r + ((p.1 : Int) - (p.2 : Int)) * ((p.1 : Int) - (p.2 : Int)))) 0 = 0 := by
  have e0 : wrap32 0 = 0 := by decide
  intro l
  induction l with
  | nil => rfl
  | cons x t ih =>
    simp only [List.map_cons, List.foldl_cons, sub_self, mul_zero, zero_mul, add_zero, e0]
    exact ih

theorem fpi_mean_sq_diff_norm_self (b : List Nat) (n : Nat) :
    fpi_mean_sq_diff_norm b b n = 0 := by
  unfold fpi_mean_sq_diff_norm
  rw [zip_self, wrapfold_self_zero]
  exact Int.zero_tdiv _

theorem wrapfold_eq_sum : ∀ (l : List (Nat × Nat)) (r : Int), 0 ≤ r →
    r + ((l.map fun p => ((p.1 : Int) - p.2) * ((p.1 : Int) - p.2)).sum) < 2 ^ 31 →
    l.foldl (fun r p => wrap32 (r + ((p.1 : Int) - (p.2 : Int)) * ((p.1 : Int) - (p.2 : Int)))) r
      = r + ((l.map fun p => ((p.1 : Int) - p.2) * ((p.1 : Int) - p.2)).sum) := by
  intro l
  induction l with
  | nil => intro r _ _; simp
  | cons p t ih =>
    intro r hr hov
    simp only [List.map_cons, List.sum_cons, List.foldl_cons] at hov ⊢
    have hterm : (0 : Int) ≤ ((p.1 : Int) - p.2) * ((p.1 : Int) - p.2) := mul_self_nonneg _
    have hsum : (0 : Int) ≤ (t.map fun p => ((p.1 : Int) - p.2) * ((p.1 : Int) - p.2)).sum := by
      refine List.sum_nonneg ?_
      intro x hx
      simp only [List.mem_map] at hx
      obtain ⟨q, _, rfl⟩ := hx
      exact mul_self_nonneg _
    have h31 : (0 : Int) < 2 ^ 31 := by positivity
    have e : wrap32 (r + ((p.1 : Int) - p.2) * ((p.1 : Int) - p.2))
        = r + ((p.1 : Int) - p.2) * ((p.1 : Int) - p.2) :=
      wrap32_eq_of_range _ (by linarith) (by linarith)
    rw [e, ih _ (by linarith) (by linarith)]
    ring

theorem sq_sum_nonneg (l : List (Nat × Nat)) :
    (0 : Int) ≤ (l.map fun p => ((p.1 : Int) - p.2) * ((p.1 : Int) - p.2)).sum := by
  refine List.sum_nonneg ?_
  intro x hx
  simp only [List.mem_map] at hx
  obtain ⟨q, _, rfl⟩ := hx
  exact mul_self_nonneg _

/- ------------------------------------------------------------------ -/
/- Pipeline state lemmas.                                              -/
/- ------------------------------------------------------------------ -/

theorem cb_commit_cases (image : FpImage) (c : Bool) (d : DetectMinutiaeData) (img2 : FpImage)
    (h : fp_image_detect_minutiae_cb image c d = some img2) :
    img2 = image ∨
      (img2.width = image.width ∧ img2.height = image.height ∧ img2.data = d.image) := by
  unfold fp_image_detect_minutiae_cb at h
  by_cases hc : c = true
  · rw [if_pos hc] at h
    left
    exact (Option.some.inj h).symm
  · rw [if_neg hc] at h
    match hm : d.minutiae with
    | none => rw [hm] at h; cases h
    | some ms =>
      rw [hm] at h
      right
      rw [← Option.some.inj h]
      exact ⟨rfl, rfl, rfl⟩

theorem thread_func_dims (extract : Extractor) (d : DetectMinutiaeData) :
    (fp_image_detect_minutiae_thread_func extract d).1.width = d.width
    ∧ (fp_image_detect_minutiae_thread_func extract d).1.height = d.height
    ∧ (fp_image_detect_minutiae_thread_func extract d).1.image
        = (detect_minutiae_normalize d).image :=
  ⟨rfl, rfl, rfl⟩

theorem length_specNormalizedImage (d : DetectMinutiaeData)
    (hd : d.image.length = d.width * d.height) :
    (specNormalizedImage d).length = d.width * d.height := by
  have hall := length_of_mem_rowsOf d.image d.width d.height hd
  have hlen := length_rowsOf d.image d.width d.height
  have hA := length_flatten_eq d.width d.height _ hlen hall
  have hB := length_flatten_eq d.width d.height _
    (by simp [hlen] :
      ((rowsOf d.image d.width d.height).reverse).length = d.height)
    (all_rows_reverse _ _ hall)
  have hC := length_flatten_eq d.width d.height _
    (by simp [hlen] :
      ((rowsOf d.image d.width d.height).map List.reverse).length = d.height)
    (all_rows_map_reverse _ _ hall)
  have hD := length_flatten_eq d.width d.height _
    (by simp [hlen] :
      (((rowsOf d.image d.width d.height).map List.reverse).reverse).length = d.height)
    (all_rows_reverse _ _ (all_rows_map_reverse _ _ hall))
  cases f1 : d.flags.hFlipped <;> cases f2 : d.flags.vFlipped <;>
    cases f3 : d.flags.colorsInverted <;>
    simp only [specNormalizedImage, f1, f2, f3, Bool.false_eq_true, eq_self_iff_true,
      if_true, if_false, List.length_map] <;>
    first
      | exact hA
      | exact hB
      | exact hC
      | exact hD

theorem length_normalize_image (d : DetectMinutiaeData)
    (hd : d.image.length = d.width * d.height) :
    (detect_minutiae_normalize d).image.length = d.width * d.height := by
  rw [normalize_spec d hd]
  exact length_specNormalizedImage d hd

/- ------------------------------------------------------------------ -/
/- Claim theorems.                                                     -/
/- ------------------------------------------------------------------ -/

/-- C1: the claim states that when the external feature extraction returns a
non-zero status the operation terminates with a fatal error and commits no
partial results, and that binarized buffer and minutiae are always both
absent or both present.  The code violates this: the completion callback
checks only the cancellation state, never the task error, so a failed
extraction still commits the work item into the image.  On a 1x1 image with
an extractor failing with status 1, the task result is the fatal error, yet
the binarized buffer and minutiae become present; with an extractor that
produced only a minutiae struct, the image even ends with minutiae present
and binarized absent, breaking the pairing invariant; with an extractor that
failed before allocating the minutiae struct, the commit branch dereferences
NULL (modelled as the `none` outcome). -/
theorem C1_failed_extraction_still_commits :
    (detect_minutiae_pipeline c1ExtractFail c1Image false).2 = Except.error 1
    ∧ c1Image.binarized = none ∧ c1Image.minutiae = none
    ∧ (detect_minutiae_pipeline c1ExtractFail c1Image false).1 =
        some
          { c1Image with
            flags := FpiImageFlags.cleared
            binarized := some [0]
            minutiae := some [] }
    ∧ ((detect_minutiae_pipeline c1ExtractNoBin c1Image false).1.map FpImage.binarized)
        = some none
    ∧ ((detect_minutiae_pipeline c1ExtractNoBin c1Image false).1.map FpImage.minutiae)
        = some (some [])
    ∧ (detect_minutiae_pipeline c1ExtractNull c1Image false).1 = none :=
  ⟨rfl, rfl, rfl, by decide, by decide, by decide, by decide⟩

/-- C2: an extraction whose cancellation token is cancelled by the time the
extraction finishes commits nothing: the completion callback returns the
source image with every field untouched, for every extractor outcome. -/
theorem C2_cancelled_extraction_leaves_image_untouched (extract : Extractor) (self : FpImage) :
    (detect_minutiae_pipeline extract self true).1 = some self
    ∧ ((detect_minutiae_pipeline extract self true).1.map FpImage.data) = some self.data
    ∧ ((detect_minutiae_pipeline extract self true).1.map FpImage.flags) = some self.flags
    ∧ ((detect_minutiae_pipeline extract self true).1.map FpImage.binarized)
        = some self.binarized
    ∧ ((detect_minutiae_pipeline extract self true).1.map FpImage.minutiae)
        = some self.minutiae :=
  ⟨rfl, rfl, rfl, rfl, rfl⟩

/-- C3: fpi_std_sq_dev computes (sum of (byte - mean)^2) / N with
mean = (sum of bytes) / N, both divisions truncating; an all-equal buffer of
any size at least 1 yields 0, and [0,0,255,255] has mean 127 and result
16256. -/
theorem C3_std_sq_dev_formula (buf : List Nat) (hbuf : 1 ≤ buf.length) :
    fpi_std_sq_dev buf =
        (buf.map fun (b : Nat) =>
          (((b : Int) - ((buf.sum / buf.length : Nat) : Int)) ^ 2).toNat).sum / buf.length
    ∧ (∀ (c n : Nat), 1 ≤ n → fpi_std_sq_dev (List.replicate n c) = 0)
    ∧ fpi_std_sq_dev [0, 0, 255, 255] = 16256
    ∧ ([0, 0, 255, 255] : List Nat).sum / ([0, 0, 255, 255] : List Nat).length = 127 :=
  ⟨fpi_std_sq_dev_eq buf, fun c n hn => fpi_std_sq_dev_const c n hn, by decide, by decide⟩

/-- C3 witness: the theorem applied to the buffer [0,0,255,255]. -/
theorem C3_std_sq_dev_formula_witness :
    1 ≤ ([0, 0, 255, 255] : List Nat).length ∧ fpi_std_sq_dev [0, 0, 255, 255] = 16256 :=
  ⟨by decide, (C3_std_sq_dev_formula [0, 0, 255, 255] (by decide)).2.2.1⟩

/-- C4 counterexample: the claim quantifies over every buffer size, but the C
accumulator is a 32-bit int; for two buffers of 33027 bytes differing by 255
everywhere the running sum 33027 * 65025 overflows, and the function returns
-65019 instead of the claimed Delta^2 = 65025. -/
theorem C4_counterexample_accumulator_overflow :
    fpi_mean_sq_diff_norm (List.replicate 33027 0) (List.replicate 33027 255) 33027 = -65019
    ∧ ((255 : Int) - 0) * ((255 : Int) - 0) = 65025
    ∧ (-65019 : Int) ≠ 65025 := by
  refine ⟨?_, by norm_num, by decide⟩
  unfold fpi_mean_sq_diff_norm
  rw [List.take_replicate, List.take_replicate, List.zip_replicate]
  simp only [Nat.min_self]
  rw [wrapfold_replicate 0 255 33027 0 (by norm_num)]
  decide

/-- C4 amended: for every two byte buffers and shared size N at least 1 (N at
most either length), provided the exact sum of squared differences stays
below 2^31 (no 32-bit overflow), fpi_mean_sq_diff_norm returns
(sum over i < N of (bufA[i] - bufB[i])^2) / N with truncating division;
identical buffers yield 0 unconditionally, and buffers differing by a
constant everywhere yield the squared difference under the same bound. -/
theorem C4_mean_sq_diff_amended (buf1 buf2 : List Nat) (size : Nat)
    (hsz : 1 ≤ size) (hl1 : size ≤ buf1.length) (hl2 : size ≤ buf2.length)
    (hov : (((buf1.take size).zip (buf2.take size)).map
        fun p => ((p.1 : Int) - p.2) * ((p.1 : Int) - p.2)).sum < 2 ^ 31) :
    fpi_mean_sq_diff_norm buf1 buf2 size =
        ((((buf1.take size).zip (buf2.take size)).map
          fun p => ((p.1 : Int) - p.2) * ((p.1 : Int) - p.2)).sum) / (size : Int)
    ∧ (∀ (b : List Nat) (n : Nat), fpi_mean_sq_diff_norm b b n = 0)
    ∧ (∀ (a c n : Nat), 1 ≤ n →
        (n : Int) * (((a : Int) - c) * ((a : Int) - c)) < 2 ^ 31 →
        fpi_mean_sq_diff_norm (List.replicate n a) (List.replicate n c) n
          = ((a : Int) - c) * ((a : Int) - c)) := by
  refine ⟨?_, fun b n => fpi_mean_sq_diff_norm_self b n, ?_⟩
  · unfold fpi_mean_sq_diff_norm
    rw [wrapfold_eq_sum _ 0 le_rfl (by simpa using hov), zero_add]
    rw [Int.tdiv_eq_ediv]
    · exact sq_sum_nonneg _
    · exact Int.natCast_nonneg size
  · intro a c n hn hb
    unfold fpi_mean_sq_diff_norm
    rw [List.take_replicate, List.take_replicate, List.zip_replicate]
    simp only [Nat.min_self]
    rw [wrapfold_replicate a c n 0 hn, zero_add]
    have hd0 : (0 : Int) ≤ (n : Int) * (((a : Int) - c) * ((a : Int) - c)) :=
      mul_nonneg (Int.natCast_nonneg n) (mul_self_nonneg _)
    have h31 : (0 : Int) < 2 ^ 31 := by positivity
    rw [wrap32_eq_of_range _ (by linarith) hb]
    exact Int.mul_tdiv_cancel_left _ (Int.natCast_ne_zero.mpr (by omega))

/-- C4 witness: the amended theorem applied to [1,2] and [3,4] with N = 2. -/
theorem C4_mean_sq_diff_amended_witness :
    (1 ≤ 2 ∧ 2 ≤ ([1, 2] : List Nat).length ∧ 2 ≤ ([3, 4] : List Nat).length)
    ∧ fpi_mean_sq_diff_norm [1, 2] [3, 4] 2 = 4 := by
  refine ⟨⟨by decide, by decide, by decide⟩, ?_⟩
  rw [(C4_mean_sq_diff_amended [1, 2] [3, 4] 2 (by decide) (by decide) (by decide)
    (by decide)).1]
  decide

/-- C5: the normalization step applies, to the work item buffer, horizontal
flip, then vertical flip, then color inversion, exactly once for each set
flag, then clears the three flags; the flips are exact row reversals and
row-order reversal over the width*height extent and inversion is the
per-byte complement, as stated by `specNormalizedImage`. -/
theorem C5_normalize_step (d : DetectMinutiaeData)
    (hd : d.image.length = d.width * d.height) :
    detect_minutiae_normalize d =
        { d with image := specNormalizedImage d, flags := FpiImageFlags.cleared }
    ∧ (detect_minutiae_normalize d).flags = FpiImageFlags.cleared :=
  ⟨normalize_spec d hd, rfl⟩

/-- C5 witness: the theorem applied to a 2x2 work item with all three flags
set; the normalized buffer is also evaluated concretely. -/
theorem C5_normalize_step_witness :
    c5Data.image.length = c5Data.width * c5Data.height
    ∧ detect_minutiae_normalize c5Data =
        { c5Data with image := specNormalizedImage c5Data, flags := FpiImageFlags.cleared }
    ∧ (detect_minutiae_normalize c5Data).image = [251, 252, 253, 254] :=
  ⟨by decide, (C5_normalize_step c5Data (by decide)).1, by decide⟩

/-- C6: on a buffer of exactly width*height bytes, hflip and vflip are
involutions: applying either twice restores the original byte layout. -/
theorem C6_flips_are_involutions (data : List Nat) (w h : Nat) (hd : data.length = w * h) :
    hflip (hflip data w h) w h = data ∧ vflip (vflip data w h) w h = data :=
  ⟨hflip_hflip data w h hd, vflip_vflip data w h hd⟩

/-- C6 witness: the theorem applied to a 3x2 buffer. -/
theorem C6_flips_are_involutions_witness :
    ([1, 2, 3, 4, 5, 6] : List Nat).length = 3 * 2
    ∧ (hflip (hflip [1, 2, 3, 4, 5, 6] 3 2) 3 2 = [1, 2, 3, 4, 5, 6]
        ∧ vflip (vflip [1, 2, 3, 4, 5, 6] 3 2) 3 2 = [1, 2, 3, 4, 5, 6]) :=
  ⟨by decide, C6_flips_are_involutions [1, 2, 3, 4, 5, 6] 3 2 (by decide)⟩

/-- C7: the dispatch step copies the raw buffer, the pending flags, the
dimensions and the resolution into the isolated work item and returns the
source image unchanged; within the pipeline the image value is only ever
replaced by the completion callback. -/
theorem C7_snapshot_does_not_mutate_source (self : FpImage)
    (hl : self.data.length = self.width * self.height) :
    (fp_image_detect_minutiae self).2 = self
    ∧ (fp_image_detect_minutiae self).1.image = self.data
    ∧ (fp_image_detect_minutiae self).1.flags = self.flags
    ∧ (fp_image_detect_minutiae self).1.width = self.width
    ∧ (fp_image_detect_minutiae self).1.height = self.height
    ∧ (fp_image_detect_minutiae self).1.ppmm = self.ppmm
    ∧ (fp_image_detect_minutiae self).1.binarized = none
    ∧ (fp_image_detect_minutiae self).1.minutiae = none := by
  refine ⟨rfl, ?_, rfl, rfl, rfl, rfl, rfl, rfl⟩
  show self.data.take (self.width * self.height) = self.data
  exact List.take_of_length_le (le_of_eq hl)

/-- C7 witness: the theorem applied to a concrete 2x2 image. -/
theorem C7_snapshot_does_not_mutate_source_witness :
    c7Image.data.length = c7Image.width * c7Image.height
    ∧ (fp_image_detect_minutiae c7Image).2 = c7Image
    ∧ (fp_image_detect_minutiae c7Image).1.image = c7Image.data :=
  ⟨by decide, (C7_snapshot_does_not_mutate_source c7Image (by decide)).1,
    (C7_snapshot_does_not_mutate_source c7Image (by decide)).2.1⟩

/-- C8: a newly created image has a zeroed raw buffer of width*height bytes,
fp_image_get_data reports length width*height, and the invariant
raw-buffer-length = width*height is preserved by the extraction pipeline on
every image that satisfies it. -/
theorem C8_raw_buffer_always_width_times_height (w h : Nat) :
    (fp_image_new w h).data.length = (fp_image_new w h).width * (fp_image_new w h).height
    ∧ (∀ b ∈ (fp_image_new w h).data, b = 0)
    ∧ (fp_image_get_data (fp_image_new w h)).2
        = (fp_image_new w h).width * (fp_image_new w h).height
    ∧ (fp_image_get_data (fp_image_new w h)).1.length = (fp_image_get_data (fp_image_new w h)).2
    ∧ ∀ (extract : Extractor) (c : Bool) (img : FpImage),
        img.data.length = img.width * img.height →
        ∀ img2 ∈ (detect_minutiae_pipeline extract img c).1,
          img2.data.length = img2.width * img2.height := by
  refine ⟨by simp [fp_image_new], ?_, rfl, by simp [fp_image_new, fp_image_get_data], ?_⟩
  · intro b hb
    simp only [fp_image_new] at hb
    exact List.eq_of_mem_replicate hb
  · intro extract c img hinv img2 hmem
    rw [Option.mem_def] at hmem
    have hmem2 : fp_image_detect_minutiae_cb img c
        ((fp_image_detect_minutiae_thread_func extract (fp_image_detect_minutiae img).1).1)
        = some img2 := hmem
    rcases cb_commit_cases img c _ img2 hmem2 with h1 | ⟨hw, hh, hdata⟩
    · rw [h1]; exact hinv
    · rw [hw, hh, hdata, (thread_func_dims extract _).2.2]
      have hd0 : (fp_image_detect_minutiae img).1.image.length
          = (fp_image_detect_minutiae img).1.width * (fp_image_detect_minutiae img).1.height := by
        show (img.data.take (img.width * img.height)).length = img.width * img.height
        rw [List.take_of_length_le (le_of_eq hinv), hinv]
      exact length_normalize_image _ hd0

/-- C8 witness: the theorem applied at dimensions 2 and 3. -/
theorem C8_raw_buffer_always_width_times_height_witness :
    (fp_image_new 2 3).data.length = (fp_image_new 2 3).width * (fp_image_new 2 3).height
    ∧ (fp_image_new 2 3).data = [0, 0, 0, 0, 0, 0] :=
  ⟨(C8_raw_buffer_always_width_times_height 2 3).1, by decide⟩

/-- C9: the fatal/device error domain has exactly the nine listed members and
the retry domain exactly the four listed ones; the two GError domains are
disjoint, an enroll progress record can only carry a retry condition, and a
terminal outcome carries either a success value or a device error, never a
retry condition. -/
theorem C9_error_domains :
    (∀ e : FpDeviceError, e ∈ allDeviceErrors) ∧ allDeviceErrors.Nodup
    ∧ allDeviceErrors.length = 9
    ∧ (∀ r : FpDeviceRetry, r ∈ allDeviceRetries) ∧ allDeviceRetries.Nodup
    ∧ allDeviceRetries.length = 4
    ∧ (∀ g : FpError, ¬(g.isDevice = true ∧ g.isRetry = true))
    ∧ (∀ rec : FpEnrollProgressRecord,
        rec.retryCondition = none ∨ ∃ r, rec.retryCondition = some r ∧ r ∈ allDeviceRetries)
    ∧ (∀ o : TerminalOutcome Unit,
        (∃ v, o = TerminalOutcome.success v) ∨
          ∃ e, o = TerminalOutcome.failure e ∧ e ∈ allDeviceErrors) := by
  refine ⟨?_, by decide, by decide, ?_, by decide, by decide, ?_, ?_, ?_⟩
  · intro e; cases e <;> simp [allDeviceErrors]
  · intro r; cases r <;> simp [allDeviceRetries]
  · intro g; cases g <;> simp [FpError.isDevice, FpError.isRetry]
  · intro rec
    rcases hr : rec.retryCondition with _ | r
    · exact Or.inl rfl
    · exact Or.inr ⟨r, rfl, by cases r <;> simp [allDeviceRetries]⟩
  · intro o
    cases o with
    | success v => exact Or.inl ⟨v, rfl⟩
    | failure e => exact Or.inr ⟨e, rfl, by cases e <;> simp [allDeviceErrors]⟩

/-- C10: width and height are clamped to 0..65535 at construction, their
product is at most 65535 * 65535 which fits a 32-bit size, and the only
operation that writes to an image, the commit callback, never changes width
or height. -/
theorem C10_dimensions_clamped_and_immutable (w h : Nat) (c : Bool) (d : DetectMinutiaeData)
    (img2 : FpImage) (hcb : fp_image_detect_minutiae_cb (fp_image_new w h) c d = some img2) :
    (fp_image_new w h).width ≤ 65535
    ∧ (fp_image_new w h).height ≤ 65535
    ∧ (fp_image_new w h).width * (fp_image_new w h).height ≤ 65535 * 65535
    ∧ (65535 * 65535 : Nat) < 2 ^ 32
    ∧ img2.width = (fp_image_new w h).width ∧ img2.height = (fp_image_new w h).height := by
  have h1 : (fp_image_new w h).width ≤ 65535 := min_le_right w 65535
  have h2 : (fp_image_new w h).height ≤ 65535 := min_le_right h 65535
  have h3 := Nat.mul_le_mul h1 h2
  have h4 : img2.width = (fp_image_new w h).width ∧ img2.height = (fp_image_new w h).height := by
    rcases cb_commit_cases (fp_image_new w h) c d img2 hcb with he | ⟨hw2, hh2, _⟩
    · rw [he]; exact ⟨rfl, rfl⟩
    · exact ⟨hw2, hh2⟩
  exact ⟨h1, h2, h3, by norm_num, h4.1, h4.2⟩

/-- C10 witness: the theorem applied at width 70000 (clamped to 65535),
height 3, with a concrete committing callback run. -/
theorem C10_dimensions_clamped_and_immutable_witness :
    fp_image_detect_minutiae_cb (fp_image_new 70000 3) false c10Data = some c10Committed
    ∧ ((fp_image_new 70000 3).width ≤ 65535
        ∧ (fp_image_new 70000 3).height ≤ 65535
        ∧ (fp_image_new 70000 3).width * (fp_image_new 70000 3).height ≤ 65535 * 65535
        ∧ (65535 * 65535 : Nat) < 2 ^ 32
        ∧ c10Committed.width = (fp_image_new 70000 3).width
        ∧ c10Committed.height = (fp_image_new 70000 3).height) :=
  ⟨by decide,
    C10_dimensions_clamped_and_immutable 70000 3 false c10Data c10Committed (by decide)⟩

end FpLib
